import Mathlib

/-!
Verification of the docker-run reconstruction engine of
`docker_snapshot.py` (docker-documenter-massupdater).

The Python source is shallowly embedded: Python dicts that the source
iterates in insertion order are modelled as association lists, optional
dictionary entries as `Option`, Python string truthiness (`x or y`,
`if x:`) as explicit emptiness tests, and `shlex.quote` as `shlexQuote`
below.  All definitions are executable.
-/

/- ## String helpers -/

/-- The literal placeholder `\x7b\x7bname\x7d\x7d` substituted by the
`--add-label` / `--add-env` templating of the source. -/
def namePlaceholder : String := "\x7b\x7bname\x7d\x7d"

/-- Leftmost, non-overlapping replacement, structurally recursive on a
fuel bound (`replacePat` instantiates the fuel with the list length, so
the zero-fuel case is never reached on a non-empty list). -/
def replacePatAux (pat rep : List Char) : Nat → List Char → List Char
  | _, [] => []
  | 0, s => s
  | fuel + 1, c :: rest =>
    if pat.isPrefixOf (c :: rest) then
      rep ++ replacePatAux pat rep fuel (rest.drop (pat.length - 1))
    else
      c :: replacePatAux pat rep fuel rest

/-- Leftmost, non-overlapping replacement of the pattern `pat` by `rep`,
the semantics of Python `str.replace` for a non-empty pattern (the
source only ever replaces the fixed pattern `namePlaceholder`). -/
def replacePat (pat rep s : List Char) : List Char :=
  replacePatAux pat rep s.length s

/-- `s.replace(pat, rep)` of the source, at `String` level. -/
def strReplace (s pat rep : String) : String :=
  String.mk (replacePat pat.data rep.data s.data)

/-- `value.replace("\x7b\x7bname\x7d\x7d", name)` of the source. -/
def substName (s name : String) : String :=
  strReplace s namePlaceholder name

/-- Split a character list at the first `=`: the semantics of the
source's `item.split("=", 1)` guarded by `"=" in item` (`none` when no
`=` occurs). -/
def splitKVChars : List Char → Option (List Char × List Char)
  | [] => none
  | c :: rest =>
    if c = '=' then some ([], rest)
    else (splitKVChars rest).map (fun kv => (c :: kv.1, kv.2))

/-- `key, value = item.split("=", 1)` when `"=" in item`, else `none`. -/
def splitKV (s : String) : Option (String × String) :=
  (splitKVChars s.data).map (fun kv => (String.mk kv.1, String.mk kv.2))

/-- `p.startswith(s)` at character level (kernel-reducible, unlike the
byte-position-based `String.isPrefixOf`). -/
def strIsPrefixOf (p s : String) : Bool :=
  p.data.isPrefixOf s.data

/-- Python `str.strip()` on ASCII whitespace, at character level. -/
def strTrim (s : String) : String :=
  String.mk (((s.data.dropWhile Char.isWhitespace).reverse.dropWhile Char.isWhitespace).reverse)

/-- Python truthiness for an optional string: `none` stands for both
`None` and the empty string (`if not x:`). -/
def optNonEmpty : Option String → Option String
  | some v => if v = "" then none else some v
  | none => none

/- ## shlex.quote -/

/-- A character `shlex.quote` leaves unquoted: Python's `_find_unsafe`
regex (unsafe = anything but ASCII word characters and `@ % + = : , .`,
slash and hyphen) finds nothing in it. -/
def isSafeChar (c : Char) : Bool :=
  (97 ≤ c.toNat && c.toNat ≤ 122) ||
  (65 ≤ c.toNat && c.toNat ≤ 90) ||
  (48 ≤ c.toNat && c.toNat ≤ 57) ||
  ['_', '@', '%', '+', '=', ':', ',', '.', '/', '-'].contains c

/-- Character-level form of `s.replace("'", "'\"'\"'")` used by
`shlex.quote`. -/
def escSingleQuote (c : Char) : List Char :=
  if c = '\'' then ['\'', '"', '\'', '"', '\''] else [c]

/-- Python `shlex.quote`: empty strings become `''`, strings of safe
characters are returned unchanged, anything else is wrapped in single
quotes with embedded single quotes escaped as `'"'"'`. -/
def shlexQuote (s : String) : String :=
  if s = "" then "''"
  else if s.data.all isSafeChar then s
  else "'" ++ String.mk (s.data.flatMap escSingleQuote) ++ "'"

/- ## Filters -/

/-- `SYSTEM_ENV_KEYS` of the source. -/
def systemEnvKeys : List String := ["PATH", "HOSTNAME", "TERM", "HOME", "PWD"]

/-- `IGNORE_LABEL_PREFIXES` of the source. -/
def ignoreLabelPrefixes : List String := ["org.opencontainers"]

/-- `IGNORE_LABEL_KEYS` of the source. -/
def ignoreLabelKeys : List String := ["maintainer", "build_version"]

/-- `DEFAULT_LINUX_CAPS` of the source. -/
def defaultLinuxCaps : List String :=
  ["AUDIT_WRITE", "CHOWN", "DAC_OVERRIDE", "FOWNER", "FSETID", "KILL",
   "MKNOD", "NET_BIND_SERVICE", "NET_RAW", "SETFCAP", "SETGID", "SETPCAP",
   "SETUID", "SYS_CHROOT"]

/-- `filter_env_vars`: keep entries containing `=` whose key is neither a
system key nor `DOCKER_`-prefixed; order preserved, original entry kept. -/
def filterEnvVars (envList : List String) : List String :=
  envList.filterMap (fun item =>
    match splitKV item with
    | none => none
    | some kv =>
      if systemEnvKeys.contains kv.1 || strIsPrefixOf "DOCKER_" kv.1 then none
      else some item)

/-- `filter_labels`: drop ignored keys and ignored prefixes.  The Python
dict is modelled as an insertion-ordered association list. -/
def filterLabels (labels : List (String × String)) : List (String × String) :=
  labels.filter (fun kv =>
    !(ignoreLabelKeys.contains kv.1) &&
    !(ignoreLabelPrefixes.any (fun p => strIsPrefixOf p kv.1)))

/- ## Restart policy -/

/-- The `RestartPolicy` record of the inspection data (`Name`,
`MaximumRetryCount`); absent dictionary entries are `none`. -/
structure RestartPolicy where
  name : Option String := none
  maximumRetryCount : Option Nat := none
deriving DecidableEq

/-- `format_restart_policy`: `policy.get("Name") or ""` is empty →
empty string; name `on-failure` with truthy retry count →
`on-failure:<count>`; otherwise the bare name. -/
def formatRestartPolicy (policy : RestartPolicy) : String :=
  let name := policy.name.getD ""
  if name = "" then ""
  else if name = "on-failure" then
    match policy.maximumRetryCount with
    | some retry => if retry ≠ 0 then "on-failure:" ++ toString retry else name
    | none => name
  else name

/- ## Ports -/

/-- One host binding of a container port (`HostIp`, `HostPort`). -/
structure PortBinding where
  hostIp : Option String := none
  hostPort : Option String := none
deriving DecidableEq

/-- `collect_ports`: nested loops over the ports mapping (a `None` or
empty binding list contributes nothing, as in the source's
`if not bindings: continue`).  `seen` of the source always holds exactly
the elements of `port_args`, so the one accumulator list models both. -/
def collectPorts (portSettings : List (String × List PortBinding)) : List String :=
  portSettings.foldl (fun portArgs entry =>
    entry.2.foldl (fun portArgs binding =>
      match binding.hostPort with
      | none => portArgs
      | some hostPort =>
        if hostPort = "" then portArgs
        else
          let host :=
            match binding.hostIp with
            | some ip =>
              if ip != "" && ip != "0.0.0.0" && ip != "::" then ip ++ ":" ++ hostPort
              else hostPort
            | none => hostPort
          let arg := "-p " ++ shlexQuote (host ++ ":" ++ entry.1)
          if arg ∈ portArgs then portArgs else portArgs ++ [arg])
      portArgs) []

/- ## Mounts -/

/-- One entry of the snapshot's `Mounts` list. -/
structure Mount where
  destination : Option String := none
  mountType : Option String := none
  rw : Option Bool := none
  source : Option String := none
  volumeName : Option String := none
deriving DecidableEq

/-- Loop body of `collect_mounts` for one mount. -/
def mountArg (mount : Mount) : Option String :=
  match optNonEmpty mount.destination with
  | none => none
  | some destination =>
    let roSuffix := if mount.rw = some false then ":ro" else ""
    if mount.mountType = some "bind" then
      match optNonEmpty mount.source with
      | none => none
      | some source => some ("-v " ++ shlexQuote (source ++ ":" ++ destination ++ roSuffix))
    else if mount.mountType = some "volume" then
      match (optNonEmpty mount.volumeName) <|> (optNonEmpty mount.source) with
      | none => none
      | some vname => some ("-v " ++ shlexQuote (vname ++ ":" ++ destination ++ roSuffix))
    else none

/-- `collect_mounts`. -/
def collectMounts (mounts : List Mount) : List String :=
  mounts.filterMap mountArg

/- ## Capabilities, sysctls, devices -/

/-- `_norm` of `collect_capabilities`: upper-case, strip a `CAP_` prefix. -/
def normCap (cap : String) : String :=
  let capUp := String.mk (cap.data.map Char.toUpper)
  if strIsPrefixOf "CAP_" capUp then String.mk (capUp.data.drop 4) else capUp

/-- `collect_capabilities` over `HostConfig.CapAdd`. -/
def collectCapabilities (capAdd : List String) : List String :=
  capAdd.filterMap (fun cap =>
    if defaultLinuxCaps.contains (normCap cap) then none
    else some ("--cap-add " ++ shlexQuote cap))

/-- `collect_sysctls` over `HostConfig.Sysctls`. -/
def collectSysctls (sysctls : List (String × String)) : List String :=
  sysctls.map (fun kv => "--sysctl " ++ shlexQuote (kv.1 ++ "=" ++ kv.2))

/-- One entry of `HostConfig.Devices`. -/
structure Device where
  pathOnHost : Option String := none
  pathInContainer : Option String := none
  cgroupPermissions : Option String := none
deriving DecidableEq

/-- Loop body of `collect_devices` for one device. -/
def deviceArg (device : Device) : Option String :=
  match optNonEmpty device.pathOnHost, optNonEmpty device.pathInContainer with
  | some pathOnHost, some pathInContainer =>
    let cgroupPerms := (optNonEmpty device.cgroupPermissions).getD "rwm"
    some ("--device " ++ shlexQuote (pathOnHost ++ ":" ++ pathInContainer ++ ":" ++ cgroupPerms))
  | _, _ => none

/-- `collect_devices`. -/
def collectDevices (devices : List Device) : List String :=
  devices.filterMap deviceArg

/- ## Mergers -/

/-- `merge_labels`: start from the existing (filtered) labels, and for
each addition substitute the placeholder in the key; skip if the
rendered key exists, else substitute in the value and insert at the
end (Python dicts preserve insertion order). -/
def mergeLabels (existing : List (String × String)) (additions : List (String × String))
    (name : String) : List (String × String) :=
  additions.foldl (fun merged kv =>
    let renderedKey := substName kv.1 name
    if merged.any (fun e => e.1 == renderedKey) then merged
    else merged ++ [(renderedKey, substName kv.2 name)]) existing

/-- One step of building `env_map` in `merge_envs`: skip entries without
`=`, `setdefault` keeps the first occurrence of a key. -/
def envMapInsert (envMap : List (String × String)) (item : String) : List (String × String) :=
  match splitKV item with
  | none => envMap
  | some kv => if envMap.any (fun e => e.1 == kv.1) then envMap else envMap ++ [kv]

/-- The `env_map` built by `merge_envs` from the existing env list. -/
def envMapOf (envList : List String) : List (String × String) :=
  envList.foldl envMapInsert []

/-- The additions loop of `merge_envs`: the addition key is used as
supplied (no placeholder substitution), the value is substituted. -/
def mergeEnvPairs (existingEnvs : List String) (additions : List (String × String))
    (name : String) : List (String × String) :=
  additions.foldl (fun envMap kv =>
    if envMap.any (fun e => e.1 == kv.1) then envMap
    else envMap ++ [(kv.1, substName kv.2 name)]) (envMapOf existingEnvs)

/-- `merge_envs`: the merged map rendered back to `KEY=VALUE` strings in
map-population order. -/
def mergeEnvs (existingEnvs : List String) (additions : List (String × String))
    (name : String) : List String :=
  (mergeEnvPairs existingEnvs additions name).map (fun kv => kv.1 ++ "=" ++ kv.2)

/- ## parse_kv_args -/

/-- `parse_kv_args`: each raw item must contain `=` and have a non-empty
stripped key; the first offending item produces the `ValueError` message
of the source, surfaced as `Except.error`. -/
def parseKvArgs : List String → String → Except String (List (String × String))
  | [], _ => .ok []
  | raw :: rest, kind =>
    match splitKV raw with
    | none => .error ("Invalid " ++ kind ++ " '" ++ raw ++ "', expected KEY=VALUE")
    | some kv =>
      if strTrim kv.1 = "" then .error ("Invalid " ++ kind ++ " '" ++ raw ++ "', key is empty")
      else
        match parseKvArgs rest kind with
        | .error e => .error e
        | .ok parsed => .ok ((strTrim kv.1, kv.2) :: parsed)

/-- `parse_label_args`. -/
def parseLabelArgs (labelArgs : List String) : Except String (List (String × String)) :=
  parseKvArgs labelArgs "label"

/-- `parse_env_args`. -/
def parseEnvArgs (envArgs : List String) : Except String (List (String × String)) :=
  parseKvArgs envArgs "environment variable"

/- ## Container snapshot and format_command -/

/-- The inspection schema represents `Entrypoint` and `Cmd` as absent, a
single string, or a list of strings. -/
inductive CmdVal where
  | none
  | str (s : String)
  | list (items : List String)
deriving DecidableEq

/-- The source's normalization of `Entrypoint` / `Cmd`:
`cfg.get(...) or []` maps `None`, the empty string and the empty list
to `[]`, then `isinstance(x, str)` wraps a (necessarily non-empty)
string into a one-element list. -/
def normalizeCmdVal : CmdVal → List String
  | .none => []
  | .str s => if s = "" then [] else [s]
  | .list items => items

/-- The `Config` facet of the snapshot used by `format_command`. -/
structure ContainerConfig where
  env : List String := []
  labels : List (String × String) := []
  image : String := ""
  entrypoint : CmdVal := .none
  cmd : CmdVal := .none
deriving DecidableEq

/-- The `HostConfig` facet of the snapshot used by `format_command`. -/
structure HostConfig where
  networkMode : Option String := none
  restartPolicy : RestartPolicy := {}
  capAdd : List String := []
  sysctls : List (String × String) := []
  devices : List Device := []
deriving DecidableEq

/-- One inspected container: `container.name`, `container.attrs` facets,
and the image-tag fallback data used when `Config.Image` is empty. -/
structure Container where
  name : String
  config : ContainerConfig := {}
  hostConfig : HostConfig := {}
  ports : List (String × List PortBinding) := []
  mounts : List Mount := []
  imageTags : List String := []
  imageShortId : String := ""
deriving DecidableEq

/-- `cfg.get("Image") or (container.image.tags[0] if container.image.tags
else container.image.short_id)`. -/
def imageOf (c : Container) : String :=
  if c.config.image ≠ "" then c.config.image
  else
    match c.imageTags with
    | t :: _ => t
    | [] => c.imageShortId

/-- The argument list assembled by `format_command` before rendering:
name, network, restart, ports, mounts, devices, capabilities, sysctls,
envs, labels, image, optional command tail.  `addRestart = ""` models
Python `None`/empty (both falsy). -/
def buildArguments (c : Container) (addLabelPairs addEnvPairs : List (String × String))
    (addRestart : String) (addNetwork : Option String) (includeCmd : Bool) : List String :=
  let nameArg := "--name " ++ shlexQuote c.name
  let networkArgs :=
    match optNonEmpty c.hostConfig.networkMode with
    | some networkMode =>
      if networkMode != "bridge" && networkMode != "default" then
        ["--network " ++ shlexQuote networkMode]
      else
        match optNonEmpty addNetwork with
        | some net => ["--network " ++ shlexQuote net]
        | none => []
    | none =>
      match optNonEmpty addNetwork with
      | some net => ["--network " ++ shlexQuote net]
      | none => []
  let restartValue :=
    if formatRestartPolicy c.hostConfig.restartPolicy ≠ "" then
      formatRestartPolicy c.hostConfig.restartPolicy
    else addRestart
  let restartArgs := if restartValue ≠ "" then ["--restart " ++ shlexQuote restartValue] else []
  let envVars := mergeEnvs (filterEnvVars c.config.env) addEnvPairs c.name
  let envArgs := envVars.map (fun env => "-e " ++ shlexQuote env)
  let labels := mergeLabels (filterLabels c.config.labels) addLabelPairs c.name
  let labelArgs := labels.map (fun kv => "--label " ++ shlexQuote (kv.1 ++ "=" ++ kv.2))
  let cmdTail :=
    if includeCmd then
      if normalizeCmdVal c.config.entrypoint ≠ [] then
        (normalizeCmdVal c.config.cmd).map shlexQuote
      else
        ((normalizeCmdVal c.config.cmd).drop 1).map shlexQuote
    else []
  [nameArg] ++ networkArgs ++ restartArgs ++ collectPorts c.ports ++ collectMounts c.mounts ++
    collectDevices c.hostConfig.devices ++ collectCapabilities c.hostConfig.capAdd ++
    collectSysctls c.hostConfig.sysctls ++ envArgs ++ labelArgs ++ [shlexQuote (imageOf c)] ++
    cmdTail

/-- `format_command`: render the argument list as a continuation-joined
multi-line `docker run` command. -/
def formatCommand (c : Container) (addLabelPairs addEnvPairs : List (String × String))
    (addRestart : String) (addNetwork : Option String) (includeCmd : Bool) : String :=
  String.intercalate " \\\n"
    ("docker run" ::
      (buildArguments c addLabelPairs addEnvPairs addRestart addNetwork includeCmd).map
        (fun arg => "  " ++ arg))

/-- The restart override `main` passes to `render_container_block`:
`args.add_restart if not format_restart_policy(...) else ""`. -/
def mainRestartArg (policy : RestartPolicy) (addRestart : String) : String :=
  if formatRestartPolicy policy = "" then addRestart else ""

/-- The network override `main` passes to `render_container_block`:
`args.add_network if NetworkMode in (None, "", "bridge", "default") else None`. -/
def mainNetworkArg (networkMode : Option String) (addNetwork : Option String) : Option String :=
  if networkMode = none ∨ networkMode = some "" ∨ networkMode = some "bridge" ∨
      networkMode = some "default" then addNetwork
  else none

/- ## Claim theorems -/

/-- The end-to-end snapshot of the specification's scenario: name `web`,
image `nginx:latest`, one `80/tcp` binding to host `0.0.0.0:8080`,
env `PATH=/usr/bin`, `TZ=UTC`, labels `maintainer=x`, `app=web`, no
restart-policy name, network mode `bridge`. -/
def webContainer : Container :=
  { name := "web",
    config := { env := ["PATH=/usr/bin", "TZ=UTC"],
                labels := [("maintainer", "x"), ("app", "web")],
                image := "nginx:latest" },
    hostConfig := { networkMode := some "bridge" },
    ports := [("80/tcp", [{ hostIp := some "0.0.0.0", hostPort := some "8080" }])] }

/-- The argument list of the scenario: operator adds the label
`app2` with placeholder value and the restart default `unless-stopped`,
routed through the gating `main` applies. -/
def webArgs : List String :=
  buildArguments webContainer [("app2", namePlaceholder)] []
    (mainRestartArg webContainer.hostConfig.restartPolicy "unless-stopped")
    (mainNetworkArg webContainer.hostConfig.networkMode Option.none) false

/-- C1: on the end-to-end scenario the engine emits, in this relative
order, `--name web`, `--restart unless-stopped`, `-p 8080:80/tcp`,
`-e TZ=UTC`, `--label app=web`, `--label app2=web`, then the image
token `nginx:latest`; no argument mentions `PATH` or `maintainer`,
and no `--network` argument is emitted. -/
theorem c1_end_to_end_scenario :
    List.Sublist
      ["--name web", "--restart unless-stopped", "-p 8080:80/tcp", "-e TZ=UTC",
       "--label app=web", "--label app2=web", "nginx:latest"] webArgs ∧
    (∀ arg ∈ webArgs,
      ¬ List.IsInfix "PATH".data arg.data ∧
      ¬ List.IsInfix "maintainer".data arg.data ∧
      strIsPrefixOf "--network" arg = false) := by
  decide

/-- C3: `format_restart_policy` returns the empty string when the policy
name is absent or empty; returns `on-failure:<count>` when the name is
`on-failure` and a positive retry count is present; otherwise returns
the bare name; in particular the three concrete examples of the
specification. -/
theorem c3_format_restart_policy (p : RestartPolicy) :
    ((p.name = Option.none ∨ p.name = some "") → formatRestartPolicy p = "") ∧
    (∀ s, p.name = some s → s ≠ "" → s ≠ "on-failure" → formatRestartPolicy p = s) ∧
    (∀ n, p.name = some "on-failure" → p.maximumRetryCount = some n → 0 < n →
      formatRestartPolicy p = "on-failure:" ++ toString n) ∧
    (p.name = some "on-failure" →
      (p.maximumRetryCount = Option.none ∨ p.maximumRetryCount = some 0) →
      formatRestartPolicy p = "on-failure") ∧
    (formatRestartPolicy { name := some "on-failure", maximumRetryCount := some 3 } =
        "on-failure:3" ∧
      formatRestartPolicy { name := some "always" } = "always" ∧
      formatRestartPolicy { name := some "" } = "") := by
  refine ⟨?_, ?_, ?_, ?_, by decide⟩
  · rintro (h | h) <;> simp [formatRestartPolicy, h]
  · intro s hs hne hof
    simp [formatRestartPolicy, hs, hne, hof]
  · intro n hname hcount hpos
    simp [formatRestartPolicy, hname, hcount, Nat.pos_iff_ne_zero.mp hpos]
  · rintro hname (h | h) <;> simp [formatRestartPolicy, hname, h]

/-- Witness for C3 at the concrete policy `always`. -/
theorem c3_witness :
    formatRestartPolicy { name := some "always" } = "always" :=
  (c3_format_restart_policy { name := some "always" }).2.1 "always" rfl
    (by decide) (by decide)

/-- Spec-modelled normalization of `Entrypoint`/`Cmd` following the
sentence of the specification: a string-typed value is treated as a
single-element list (the source, by contrast, first applies `or []`,
which sends the empty string to the empty list). -/
def specNormalizeCmdVal : CmdVal → List String
  | .none => []
  | .str s => [s]
  | .list items => items

/-- A container whose entrypoint is the string-typed empty string. -/
def c2Container : Container :=
  { name := "w", config := { entrypoint := .str "", cmd := .list ["prog", "a"] } }

/-- The command tail C2 predicts from a normalized entrypoint/cmd pair. -/
def c2SpecTail (entrypoint cmd : List String) : List String :=
  if entrypoint ≠ [] then cmd.map shlexQuote else (cmd.drop 1).map shlexQuote

/-- C2 counterexample: for the string-typed empty entrypoint the claim's
normalization gives the non-empty list `[""]`, so the claim predicts the
whole `cmd` as tail; the code normalizes `""` to `[]` and drops
`cmd[0]`, emitting only `["a"]`. -/
theorem c2_counterexample :
    ¬ buildArguments c2Container [] [] "" Option.none true =
        buildArguments c2Container [] [] "" Option.none false ++
          c2SpecTail (specNormalizeCmdVal c2Container.config.entrypoint)
            (specNormalizeCmdVal c2Container.config.cmd) := by
  decide

/-- C2 (amended): the tail after the image is all of `cmd` when the
code-normalized entrypoint is non-empty, `cmd` minus its first element
when the normalized entrypoint is empty, and nothing when `cmd` is
empty — where a string-typed value normalizes to the empty list if the
string is empty, and to a one-element list otherwise; with
`includeCmd = false` the argument list is exactly the tail-less one. -/
theorem c2_command_tail (c : Container) (addL addE : List (String × String))
    (ar : String) (an : Option String) :
    (normalizeCmdVal c.config.entrypoint ≠ [] →
      buildArguments c addL addE ar an true =
        buildArguments c addL addE ar an false ++
          (normalizeCmdVal c.config.cmd).map shlexQuote) ∧
    (normalizeCmdVal c.config.entrypoint = [] →
      buildArguments c addL addE ar an true =
        buildArguments c addL addE ar an false ++
          ((normalizeCmdVal c.config.cmd).drop 1).map shlexQuote) ∧
    (normalizeCmdVal c.config.cmd = [] →
      buildArguments c addL addE ar an true = buildArguments c addL addE ar an false) := by
  have base :
      buildArguments c addL addE ar an true =
        buildArguments c addL addE ar an false ++
          (if normalizeCmdVal c.config.entrypoint ≠ [] then
            (normalizeCmdVal c.config.cmd).map shlexQuote
          else ((normalizeCmdVal c.config.cmd).drop 1).map shlexQuote) := by
    simp [buildArguments, List.append_assoc]
  refine ⟨fun h => ?_, fun h => ?_, fun h => ?_⟩
  · rw [base, if_pos h]
  · rw [base, if_neg (by simp [h])]
  · rw [base, h]
    simp

/-- The spec's command-tail example: entrypoint `/entry.sh`, cmd `a b`. -/
def c2WitnessContainer : Container :=
  { name := "w", config := { entrypoint := .list ["/entry.sh"], cmd := .list ["a", "b"] } }

/-- Witness for C2 (amended) at the spec's command-tail example. -/
theorem c2_witness :
    buildArguments c2WitnessContainer [] [] "" Option.none true =
      buildArguments c2WitnessContainer [] [] "" Option.none false ++
        (normalizeCmdVal c2WitnessContainer.config.cmd).map shlexQuote :=
  (c2_command_tail c2WitnessContainer [] [] "" Option.none).1 (by decide)

/- ## Association-list lemmas for the mergers -/

/-- Rebuilding a string from its character list is the identity. -/
theorem stringMk_data (s : String) : String.mk s.data = s := by
  cases s
  rfl

/-- The value associated with a key in an association list: the second
component of the first pair whose key matches. -/
def lookupVal (m : List (String × String)) (k : String) : Option String :=
  (m.find? (fun kv => kv.1 == k)).map (fun kv => kv.2)

/-- The value associated with a key in a `KEY=VALUE` string list, read
the way `merge_envs` reads it (first occurrence wins). -/
def envLookup (xs : List String) (k : String) : Option String :=
  lookupVal (envMapOf xs) k

/-- A fold whose step only ever appends extends its accumulator. -/
theorem foldl_extends {α β : Type} (step : List β → α → List β)
    (h : ∀ m a, ∃ u, step m a = m ++ u) :
    ∀ (l : List α) (m : List β), ∃ t, l.foldl step m = m ++ t := by
  intro l
  induction l with
  | nil => exact fun m => ⟨[], by simp⟩
  | cons a l ih =>
    intro m
    obtain ⟨u, hu⟩ := h m a
    obtain ⟨t, ht⟩ := ih (step m a)
    refine ⟨u ++ t, ?_⟩
    rw [List.foldl_cons, ht, hu, List.append_assoc]

/-- A successful `find?` is unaffected by appending on the right. -/
theorem find?_append_some {α : Type} (p : α → Bool) (m t : List α) (x : α)
    (h : m.find? p = some x) : (m ++ t).find? p = some x := by
  induction m with
  | nil => simp [List.find?] at h
  | cons y m ih =>
    rw [List.cons_append]
    rw [List.find?_cons] at h ⊢
    cases hp : p y with
    | true => simpa [hp] using h
    | false =>
      rw [hp] at h
      simpa [hp] using ih h

/-- A successful lookup is unaffected by appending on the right. -/
theorem lookupVal_append (m t : List (String × String)) (k v : String)
    (h : lookupVal m k = some v) : lookupVal (m ++ t) k = some v := by
  unfold lookupVal at h ⊢
  obtain ⟨x, hx, hv⟩ := Option.map_eq_some'.mp h
  rw [find?_append_some _ m t x hx]
  simpa using hv

/-- The key produced by `splitKVChars` contains no `=`. -/
theorem splitKVChars_no_eq :
    ∀ (s : List Char) (kv : List Char × List Char),
      splitKVChars s = some kv → '=' ∉ kv.1 := by
  intro s
  induction s with
  | nil => intro kv h; simp [splitKVChars] at h
  | cons c rest ih =>
    intro kv h
    rw [splitKVChars] at h
    by_cases hc : c = '='
    · rw [if_pos hc] at h
      injection h with h2
      rw [← h2]
      simp
    · rw [if_neg hc] at h
      cases hsp : splitKVChars rest with
      | none => rw [hsp] at h; simp at h
      | some kv' =>
        rw [hsp, Option.map_some'] at h
        injection h with h2
        subst h2
        simp only [List.mem_cons, not_or]
        exact ⟨fun he => hc he.symm, ih kv' hsp⟩

/-- `splitKVChars` inverts joining with `=` when the key is `=`-free. -/
theorem splitKVChars_append (k v : List Char) (hk : '=' ∉ k) :
    splitKVChars (k ++ '=' :: v) = some (k, v) := by
  induction k with
  | nil => simp [splitKVChars]
  | cons c k ih =>
    have hc : c ≠ '=' := fun h => hk (by simp [h])
    have hk' : '=' ∉ k := fun h => hk (by simp [h])
    simp [splitKVChars, hc, ih hk']

/-- `splitKV` inverts `KEY=VALUE` joining when the key is `=`-free. -/
theorem splitKV_join (k v : String) (hk : '=' ∉ k.data) :
    splitKV (k ++ "=" ++ v) = some (k, v) := by
  unfold splitKV
  have hdata : (k ++ "=" ++ v).data = k.data ++ '=' :: v.data := by
    simp [String.data_append]
  rw [hdata, splitKVChars_append _ _ hk]
  simp [stringMk_data]

/-- A false `any` over the keys means the key is absent. -/
theorem any_key_eq_false {m : List (String × String)} {k : String} :
    m.any (fun e => e.1 == k) = false ↔ k ∉ m.map Prod.fst := by
  simp [List.any_eq_false, List.mem_map]
  aesop

/-- Folding `envMapInsert` preserves `=`-free keys. -/
theorem foldl_envMapInsert_no_eq :
    ∀ (xs : List String) (m : List (String × String)),
      (∀ p ∈ m, '=' ∉ p.1.data) →
      ∀ p ∈ xs.foldl envMapInsert m, '=' ∉ p.1.data := by
  intro xs
  induction xs with
  | nil => intro m hm; simpa using hm
  | cons x xs ih =>
    intro m hm
    rw [List.foldl_cons]
    apply ih
    intro p hp
    unfold envMapInsert at hp
    cases hsp : splitKV x with
    | none => rw [hsp] at hp; exact hm p hp
    | some kv =>
      rw [hsp] at hp
      by_cases hb : m.any (fun e => e.1 == kv.1)
      · simp only [hb, if_true] at hp; exact hm p hp
      · simp only [hb, if_false, Bool.false_eq_true] at hp
        rcases List.mem_append.mp hp with hmem | hmem
        · exact hm p hmem
        · have hpkv : p = kv := by simpa using hmem
          subst hpkv
          unfold splitKV at hsp
          obtain ⟨kvc, hkvc, heq⟩ := Option.map_eq_some'.mp hsp
          have := splitKVChars_no_eq x.data kvc hkvc
          rw [← heq]
          simpa using this

/-- Every key in the env map built by `merge_envs` is `=`-free. -/
theorem envMapOf_no_eq (xs : List String) :
    ∀ p ∈ envMapOf xs, '=' ∉ p.1.data :=
  foldl_envMapInsert_no_eq xs [] (by simp)

/-- Folding `envMapInsert` preserves distinctness of keys. -/
theorem foldl_envMapInsert_nodup :
    ∀ (xs : List String) (m : List (String × String)),
      (m.map Prod.fst).Nodup →
      ((xs.foldl envMapInsert m).map Prod.fst).Nodup := by
  intro xs
  induction xs with
  | nil => intro m hm; simpa using hm
  | cons x xs ih =>
    intro m hm
    rw [List.foldl_cons]
    apply ih
    unfold envMapInsert
    cases hsp : splitKV x with
    | none => exact hm
    | some kv =>
      by_cases hb : m.any (fun e => e.1 == kv.1)
      · simp only [hb, if_true]; exact hm
      · simp only [hb, if_false, Bool.false_eq_true]
        rw [List.map_append, List.nodup_append]
        refine ⟨hm, by simp, ?_⟩
        intro a ha hb'
        have hak : a = kv.1 := by simpa using hb'
        subst hak
        exact any_key_eq_false.mp (Bool.eq_false_iff.mpr hb) ha

/-- The keys of the env map are pairwise distinct. -/
theorem envMapOf_nodup (xs : List String) :
    ((envMapOf xs).map Prod.fst).Nodup :=
  foldl_envMapInsert_nodup xs [] (by simp)

/-- Folding the rendered `KEY=VALUE` strings of fresh, `=`-free pairs
back through `envMapInsert` appends exactly those pairs. -/
theorem foldl_envMapInsert_map_join :
    ∀ (m acc : List (String × String)),
      (∀ p ∈ m, '=' ∉ p.1.data) →
      (((acc ++ m).map Prod.fst)).Nodup →
      (m.map (fun kv => kv.1 ++ "=" ++ kv.2)).foldl envMapInsert acc = acc ++ m := by
  intro m
  induction m with
  | nil => intro acc _ _; simp
  | cons kv m ih =>
    intro acc hfree hnodup
    rw [List.map_cons, List.foldl_cons]
    have hsp : splitKV (kv.1 ++ "=" ++ kv.2) = some (kv.1, kv.2) :=
      splitKV_join kv.1 kv.2 (hfree kv (by simp))
    have hnotin : kv.1 ∉ acc.map Prod.fst := by
      rw [List.map_append, List.nodup_append] at hnodup
      intro hmem
      exact hnodup.2.2 hmem (by simp)
    have hany : acc.any (fun e => e.1 == kv.1) = false :=
      any_key_eq_false.mpr hnotin
    have hins : envMapInsert acc (kv.1 ++ "=" ++ kv.2) = acc ++ [kv] := by
      unfold envMapInsert
      rw [hsp]
      simp [hany]
    rw [hins, ih (acc ++ [kv]) (fun p hp => hfree p (by simp [hp])) (by simpa using hnodup)]
    simp

/-- Rendering the env map to strings and re-reading it is the identity. -/
theorem envMapOf_map_join (m : List (String × String))
    (hfree : ∀ p ∈ m, '=' ∉ p.1.data) (hnodup : (m.map Prod.fst).Nodup) :
    envMapOf (m.map (fun kv => kv.1 ++ "=" ++ kv.2)) = m := by
  have h := foldl_envMapInsert_map_join m [] hfree (by simpa using hnodup)
  simpa [envMapOf] using h

/-- `merge_labels` only appends to the existing labels. -/
theorem mergeLabels_extends (existing adds : List (String × String)) (name : String) :
    ∃ t, mergeLabels existing adds name = existing ++ t := by
  unfold mergeLabels
  apply foldl_extends
  intro m a
  by_cases hc : m.any (fun e => e.1 == substName a.1 name)
  · exact ⟨[], by simp [hc]⟩
  · exact ⟨[(substName a.1 name, substName a.2 name)], by simp [hc]⟩

/-- The additions loop of `merge_envs` only appends to the env map. -/
theorem mergeEnvPairs_extends (envs : List String) (adds : List (String × String))
    (name : String) :
    ∃ t, mergeEnvPairs envs adds name = envMapOf envs ++ t := by
  unfold mergeEnvPairs
  apply foldl_extends
  intro m a
  by_cases hc : m.any (fun e => e.1 == a.1)
  · exact ⟨[], by simp [hc]⟩
  · exact ⟨[(a.1, substName a.2 name)], by simp [hc]⟩

/-- Folding `envMapInsert` only appends. -/
theorem foldl_envMapInsert_extends (xs : List String) (m : List (String × String)) :
    ∃ t, xs.foldl envMapInsert m = m ++ t := by
  apply foldl_extends
  intro m a
  unfold envMapInsert
  cases hsp : splitKV a with
  | none => exact ⟨[], by simp⟩
  | some kv =>
    by_cases hb : m.any (fun e => e.1 == kv.1)
    · exact ⟨[], by simp [hb]⟩
    · exact ⟨[kv], by simp [hb]⟩

/-- Splitting `envMapOf` over an appended list. -/
theorem envMapOf_append (xs ys : List String) :
    envMapOf (xs ++ ys) = ys.foldl envMapInsert (envMapOf xs) := by
  simp [envMapOf, List.foldl_append]

/-- C4: an addition never overwrites an existing key — for any existing
label map (resp. filtered env list) containing key `k`, merging any
additions under any container name leaves the value associated with `k`
unchanged. -/
theorem c4_merge_never_overwrites :
    (∀ (labels : List (String × String)) (adds : List (String × String))
        (name k v : String),
        lookupVal labels k = some v →
        lookupVal (mergeLabels labels adds name) k = some v) ∧
    (∀ (envs : List String) (adds : List (String × String)) (name k v : String),
        envLookup envs k = some v →
        envLookup (mergeEnvs envs adds name) k = some v) := by
  constructor
  · intro labels adds name k v h
    obtain ⟨t, ht⟩ := mergeLabels_extends labels adds name
    rw [ht]
    exact lookupVal_append _ _ _ _ h
  · intro envs adds name k v h
    obtain ⟨t, ht⟩ := mergeEnvPairs_extends envs adds name
    unfold mergeEnvs
    rw [ht, List.map_append]
    unfold envLookup
    rw [envMapOf_append,
      envMapOf_map_join (envMapOf envs) (envMapOf_no_eq envs) (envMapOf_nodup envs)]
    obtain ⟨t', ht'⟩ :=
      foldl_envMapInsert_extends (t.map fun kv => kv.1 ++ "=" ++ kv.2) (envMapOf envs)
    rw [ht']
    exact lookupVal_append _ _ _ _ h

/-- Witness for C4: existing label `app=web` and env `TZ=UTC` survive
additions that reuse their keys. -/
theorem c4_witness :
    lookupVal (mergeLabels [("app", "web")] [("app", "other")] "web") "app" = some "web" ∧
    envLookup (mergeEnvs ["TZ=UTC"] [("TZ", "other")] "web") "TZ" = some "UTC" :=
  ⟨c4_merge_never_overwrites.1 [("app", "web")] [("app", "other")] "web" "app" "web"
      (by decide),
    c4_merge_never_overwrites.2 ["TZ=UTC"] [("TZ", "other")] "web" "TZ" "UTC" (by decide)⟩

/-- `replacePatAux` leaves a list without any pattern occurrence alone. -/
theorem replacePatAux_noop (pat rep : List Char) :
    ∀ (fuel : Nat) (s : List Char), ¬ List.IsInfix pat s →
      replacePatAux pat rep fuel s = s := by
  intro fuel
  induction fuel with
  | zero => intro s _; cases s <;> rfl
  | succ fuel ih =>
    intro s h
    cases s with
    | nil => rfl
    | cons c rest =>
      have hpre : pat.isPrefixOf (c :: rest) = false := by
        cases hp : pat.isPrefixOf (c :: rest)
        · rfl
        · exact absurd (List.IsPrefix.isInfix (List.isPrefixOf_iff_prefix.mp hp)) h
      rw [replacePatAux]
      simp only [hpre, Bool.false_eq_true, if_false, List.cons.injEq, true_and]
      exact ih rest fun hi => h (List.infix_cons hi)

/-- A string not containing the placeholder is left unchanged. -/
theorem substName_noop (s name : String)
    (h : ¬ List.IsInfix namePlaceholder.data s.data) : substName s name = s := by
  unfold substName strReplace replacePat
  rw [replacePatAux_noop _ _ _ _ h, stringMk_data]

/-- C6 counterexample: `merge_envs` inserts an addition key containing
the placeholder verbatim — the claim predicts the substituted key
`webK`, the code keeps the placeholder. -/
theorem c6_counterexample :
    mergeEnvs [] [(namePlaceholder ++ "K", "v")] "web" = [namePlaceholder ++ "K=v"] ∧
    substName (namePlaceholder ++ "K") "web" = "webK" ∧
    namePlaceholder ++ "K=v" ≠ "webK=v" := by
  decide

/-- C6 (amended): `merge_labels` substitutes the placeholder in both the
key and the value of an addition; `merge_envs` substitutes only in the
value and uses the key literally; and only the exact placeholder form is
substituted — a string without an exact occurrence (such as the variant
with a capital N) is left unchanged. -/
theorem c6_placeholder_templating :
    (∀ (existing : List (String × String)) (k v name : String),
        existing.any (fun e => e.1 == substName k name) = false →
        mergeLabels existing [(k, v)] name =
          existing ++ [(substName k name, substName v name)]) ∧
    (∀ (envs : List String) (k v name : String),
        (envMapOf envs).any (fun e => e.1 == k) = false →
        mergeEnvs envs [(k, v)] name =
          (envMapOf envs).map (fun kv => kv.1 ++ "=" ++ kv.2) ++
            [k ++ "=" ++ substName v name]) ∧
    (∀ (s name : String), ¬ List.IsInfix namePlaceholder.data s.data →
        substName s name = s) ∧
    substName "\x7b\x7bName\x7d\x7d" "web" = "\x7b\x7bName\x7d\x7d" := by
  refine ⟨?_, ?_, substName_noop, by decide⟩
  · intro existing k v name h
    simp [mergeLabels, h]
  · intro envs k v name h
    simp [mergeEnvs, mergeEnvPairs, h]

/-- Witness for C6 (amended): concrete label and env merges, and a
placeholder-free string kept unchanged. -/
theorem c6_witness :
    mergeLabels [] [("app2", namePlaceholder)] "web" = [("app2", "web")] ∧
    mergeEnvs [] [("K", namePlaceholder)] "web" = ["K=web"] ∧
    substName "plain" "web" = "plain" := by
  refine ⟨?_, ?_, c6_placeholder_templating.2.2.1 "plain" "web" (by decide)⟩
  · exact (c6_placeholder_templating.1 [] "app2" namePlaceholder "web" (by decide)).trans
      (by decide)
  · exact (c6_placeholder_templating.2.1 [] "K" namePlaceholder "web" (by decide)).trans
      (by decide)

/-- The key column of the env-addition fold does not depend on the
container name (the name only enters substituted values). -/
theorem mergeEnvStep_keys :
    ∀ (adds : List (String × String)) (m₁ m₂ : List (String × String)) (n₁ n₂ : String),
      m₁.map Prod.fst = m₂.map Prod.fst →
      (adds.foldl (fun envMap kv =>
          if envMap.any (fun e => e.1 == kv.1) then envMap
          else envMap ++ [(kv.1, substName kv.2 n₁)]) m₁).map Prod.fst =
        (adds.foldl (fun envMap kv =>
          if envMap.any (fun e => e.1 == kv.1) then envMap
          else envMap ++ [(kv.1, substName kv.2 n₂)]) m₂).map Prod.fst := by
  intro adds
  induction adds with
  | nil => intro m₁ m₂ n₁ n₂ h; exact h
  | cons a adds ih =>
    intro m₁ m₂ n₁ n₂ h
    have key : ∀ (m : List (String × String)),
        m.any (fun e => e.1 == a.1) = (m.map Prod.fst).any (fun x => x == a.1) := by
      intro m
      induction m with
      | nil => rfl
      | cons y m ihm => simp [List.any_cons, ihm]
    have hany : m₁.any (fun e => e.1 == a.1) = m₂.any (fun e => e.1 == a.1) := by
      rw [key m₁, key m₂, h]
    rw [List.foldl_cons, List.foldl_cons]
    cases hb : m₁.any (fun e => e.1 == a.1) with
    | true =>
      rw [hb] at hany
      simp only [hb, hany.symm, if_true]
      exact ih m₁ m₂ n₁ n₂ h
    | false =>
      rw [hb] at hany
      simp only [hb, hany.symm, Bool.false_eq_true, if_false]
      exact ih _ _ n₁ n₂ (by simp [h])

/-- C10: `merge_envs` never substitutes the placeholder in addition
keys — the key column of the merged map is independent of the container
name, an absent addition key is inserted verbatim (even when it contains
the placeholder) with only its value substituted, and the existing-key
check compares the literal key. -/
theorem c10_env_addition_keys_literal :
    (∀ (envs : List String) (adds : List (String × String)) (name₁ name₂ : String),
        (mergeEnvPairs envs adds name₁).map Prod.fst =
          (mergeEnvPairs envs adds name₂).map Prod.fst) ∧
    (∀ (envs : List String) (k v name : String),
        (envMapOf envs).any (fun e => e.1 == k) = false →
        mergeEnvs envs [(k, v)] name =
          (envMapOf envs).map (fun kv => kv.1 ++ "=" ++ kv.2) ++
            [k ++ "=" ++ substName v name]) ∧
    (∀ (envs : List String) (k v name : String),
        (envMapOf envs).any (fun e => e.1 == k) = true →
        mergeEnvs envs [(k, v)] name =
          (envMapOf envs).map (fun kv => kv.1 ++ "=" ++ kv.2)) := by
  refine ⟨?_, ?_, ?_⟩
  · intro envs adds name₁ name₂
    unfold mergeEnvPairs
    exact mergeEnvStep_keys adds (envMapOf envs) (envMapOf envs) name₁ name₂ rfl
  · intro envs k v name h
    simp [mergeEnvs, mergeEnvPairs, h]
  · intro envs k v name h
    simp [mergeEnvs, mergeEnvPairs, h]

/-- Witness for C10: a placeholder-bearing env key is inserted verbatim,
and a literal-key collision is skipped. -/
theorem c10_witness :
    (mergeEnvPairs ["A=1"] [(namePlaceholder, "x")] "web").map Prod.fst =
      (mergeEnvPairs ["A=1"] [(namePlaceholder, "x")] "other").map Prod.fst ∧
    mergeEnvs [] [(namePlaceholder, "v")] "web" = [namePlaceholder ++ "=v"] ∧
    mergeEnvs ["K=1"] [("K", "v")] "web" = ["K=1"] :=
  ⟨c10_env_addition_keys_literal.1 ["A=1"] [(namePlaceholder, "x")] "web" "other",
    (c10_env_addition_keys_literal.2.1 [] namePlaceholder "v" "web" (by decide)).trans
      (by decide),
    (c10_env_addition_keys_literal.2.2 ["K=1"] "K" "v" "web" (by decide)).trans (by decide)⟩

/-- A raw operator item `parse_kv_args` accepts: it contains `=` and the
stripped key is non-empty. -/
def goodKV (raw : String) : Bool :=
  match splitKV raw with
  | some kv => strTrim kv.1 != ""
  | none => false

/-- C8: `parse_kv_args` returns the stripped `(key, value)` pairs in
input order when every item contains `=` and has a non-empty key, and
returns a typed validation error (rather than exiting) exactly when some
item lacks `=` or has an empty key. -/
theorem c8_parse_kv_args (items : List String) (kind : String) :
    ((∀ raw ∈ items, goodKV raw = true) →
      parseKvArgs items kind =
        Except.ok (items.filterMap (fun raw =>
          (splitKV raw).map (fun kv => (strTrim kv.1, kv.2))))) ∧
    ((¬ ∀ raw ∈ items, goodKV raw = true) →
      ∃ msg, parseKvArgs items kind = Except.error msg) := by
  induction items with
  | nil => exact ⟨fun _ => rfl, fun h => absurd (by simp) h⟩
  | cons raw rest ih =>
    constructor
    · intro h
      have hraw : goodKV raw = true := h raw (by simp)
      unfold goodKV at hraw
      cases hsp : splitKV raw with
      | none => rw [hsp] at hraw; simp at hraw
      | some kv =>
        rw [hsp] at hraw
        have htrim : ¬ strTrim kv.1 = "" := by simpa using hraw
        have hrest := ih.1 (fun r hr => h r (by simp [hr]))
        simp only [parseKvArgs, hsp]
        rw [if_neg htrim, hrest]
        simp [List.filterMap_cons, hsp]
    · intro h
      by_cases hraw : goodKV raw = true
      · have hrest : ¬ ∀ r ∈ rest, goodKV r = true := by
          intro hall
          apply h
          intro r hr
          rcases List.mem_cons.mp hr with hr | hr
          · exact hr ▸ hraw
          · exact hall r hr
        obtain ⟨msg, hmsg⟩ := ih.2 hrest
        unfold goodKV at hraw
        cases hsp : splitKV raw with
        | none => rw [hsp] at hraw; simp at hraw
        | some kv =>
          rw [hsp] at hraw
          have htrim : ¬ strTrim kv.1 = "" := by simpa using hraw
          refine ⟨msg, ?_⟩
          simp only [parseKvArgs, hsp]
          rw [if_neg htrim, hmsg]
      · unfold goodKV at hraw
        cases hsp : splitKV raw with
        | none =>
          refine ⟨"Invalid " ++ kind ++ " '" ++ raw ++ "', expected KEY=VALUE", ?_⟩
          simp only [parseKvArgs, hsp]
        | some kv =>
          rw [hsp] at hraw
          have htrim : strTrim kv.1 = "" := by
            by_contra hne
            exact hraw (by simp [hne])
          refine ⟨"Invalid " ++ kind ++ " '" ++ raw ++ "', key is empty", ?_⟩
          simp only [parseKvArgs, hsp]
          rw [if_pos htrim]

/-- Witness for C8: a well-formed list parses in order with stripped
keys; an item without `=` yields a typed error. -/
theorem c8_witness :
    parseKvArgs ["a=b", " k =v"] "label" = Except.ok [("a", "b"), ("k", "v")] ∧
    ∃ msg, parseKvArgs ["nokey"] "label" = Except.error msg := by
  constructor
  · exact ((c8_parse_kv_args ["a=b", " k =v"] "label").1 (by decide)).trans
      (congrArg Except.ok (by decide))
  · exact (c8_parse_kv_args ["nokey"] "label").2 (by decide)

/-- Appending to a non-empty string stays non-empty. -/
theorem string_append_ne_empty (s t : String) (h : s ≠ "") : s ++ t ≠ "" := by
  intro he
  apply h
  have hd := congrArg String.data he
  rw [String.data_append] at hd
  have hnil := List.append_eq_nil.mp hd
  cases s
  cases hnil.1
  rfl

/-- The formatted restart policy is empty exactly when the raw policy
has no name set (`None` or empty). -/
theorem formatRestartPolicy_empty_iff (p : RestartPolicy) :
    formatRestartPolicy p = "" ↔ p.name.getD "" = "" := by
  constructor
  · intro h
    by_contra hn
    simp only [formatRestartPolicy] at h
    rw [if_neg hn] at h
    by_cases hof : p.name.getD "" = "on-failure"
    · rw [if_pos hof] at h
      cases hr : p.maximumRetryCount with
      | none => rw [hr] at h; exact hn h
      | some r =>
        rw [hr] at h
        by_cases hz : r ≠ 0
        · have h2 : "on-failure:" ++ toString r = "" := by simpa [hz] using h
          exact string_append_ne_empty "on-failure:" (toString r) (by decide) h2
        · have h2 : p.name.getD "" = "" := by simpa [hz] using h
          exact hn h2
    · rw [if_neg hof] at h
      exact hn h
  · intro h
    simp [formatRestartPolicy, h]

/-- C9: with a non-empty operator restart default, `main` passes the
override into the engine exactly when the snapshot's restart policy has
no name set — and the engine then emits `--restart <override>`; when a
name is set, the override passed is empty. -/
theorem c9_restart_override_gating (c : Container) (addRestart : String)
    (addL addE : List (String × String)) (an : Option String) (ic : Bool)
    (h : addRestart ≠ "") :
    (c.hostConfig.restartPolicy.name.getD "" = "" →
      mainRestartArg c.hostConfig.restartPolicy addRestart = addRestart ∧
      ("--restart " ++ shlexQuote addRestart) ∈
        buildArguments c addL addE (mainRestartArg c.hostConfig.restartPolicy addRestart)
          an ic) ∧
    (c.hostConfig.restartPolicy.name.getD "" ≠ "" →
      mainRestartArg c.hostConfig.restartPolicy addRestart = "") := by
  constructor
  · intro hname
    have hfmt : formatRestartPolicy c.hostConfig.restartPolicy = "" :=
      (formatRestartPolicy_empty_iff _).mpr hname
    have hmain : mainRestartArg c.hostConfig.restartPolicy addRestart = addRestart := by
      simp [mainRestartArg, hfmt]
    refine ⟨hmain, ?_⟩
    rw [hmain]
    simp [buildArguments, hfmt, h, List.mem_append]
  · intro hname
    have hfmt : formatRestartPolicy c.hostConfig.restartPolicy ≠ "" :=
      fun he => hname ((formatRestartPolicy_empty_iff _).mp he)
    simp [mainRestartArg, hfmt]

/-- Witness for C9: a container with no restart-policy name receives the
override and emits it; one with the name `always` does not. -/
theorem c9_witness :
    mainRestartArg {} "unless-stopped" = "unless-stopped" ∧
    ("--restart " ++ shlexQuote "unless-stopped") ∈
      buildArguments { name := "w" } [] [] (mainRestartArg {} "unless-stopped")
        Option.none false ∧
    mainRestartArg { name := some "always" } "unless-stopped" = "" := by
  have h1 := (c9_restart_override_gating { name := "w" } "unless-stopped" [] []
    Option.none false (by decide)).1 (by decide)
  have h2 := (c9_restart_override_gating
    { name := "w", hostConfig := { restartPolicy := { name := some "always" } } }
    "unless-stopped" [] [] Option.none false (by decide)).2 (by decide)
  exact ⟨h1.1, h1.2, h2⟩

/- ## Port deduplication (C5) -/

/-- First-seen-order deduplication: keep each element's first occurrence. -/
def dedupFirst : List String → List String
  | [] => []
  | x :: xs => x :: dedupFirst (xs.filter (fun y => y ≠ x))
termination_by l => l.length
decreasing_by
  simp only [List.length_cons]
  exact Nat.lt_succ_of_le (List.length_filter_le _ _)

/-- The `-p` argument C5 predicts for one binding: only bindings with a
non-empty host port produce one, and the host-IP segment is prefixed
exactly when the IP is set and is none of the wildcard values. -/
def c5PortArg (containerPort : String) (b : PortBinding) : Option String :=
  match b.hostPort with
  | Option.none => Option.none
  | some hostPort =>
    if hostPort = "" then Option.none
    else
      match b.hostIp with
      | some hostIp =>
        if hostIp = "0.0.0.0" ∨ hostIp = "::" ∨ hostIp = "" then
          some ("-p " ++ shlexQuote (hostPort ++ ":" ++ containerPort))
        else
          some ("-p " ++ shlexQuote (hostIp ++ ":" ++ hostPort ++ ":" ++ containerPort))
      | Option.none => some ("-p " ++ shlexQuote (hostPort ++ ":" ++ containerPort))

/-- All `-p` arguments of the ports map before deduplication, in
first-seen order (container ports with no bindings contribute nothing). -/
def c5RawArgs (portSettings : List (String × List PortBinding)) : List String :=
  portSettings.flatMap (fun entry => entry.2.filterMap (c5PortArg entry.1))

/-- Insert an argument unless already present (the `seen` check). -/
def insDedup (acc : List String) (a : String) : List String :=
  if a ∈ acc then acc else acc ++ [a]

/-- One inner-loop step of `collect_ports` is the deduplicating insert
of the C5-predicted argument. -/
theorem inner_step_eq (cp : String) (acc : List String) (b : PortBinding) :
    (match b.hostPort with
      | Option.none => acc
      | some hostPort =>
        if hostPort = "" then acc
        else
          let host :=
            match b.hostIp with
            | some ip =>
              if ip != "" && ip != "0.0.0.0" && ip != "::" then ip ++ ":" ++ hostPort
              else hostPort
            | Option.none => hostPort
          let arg := "-p " ++ shlexQuote (host ++ ":" ++ cp)
          if arg ∈ acc then acc else acc ++ [arg]) =
      (match c5PortArg cp b with
        | Option.none => acc
        | some a => insDedup acc a) := by
  obtain ⟨ip, hp⟩ := b
  cases hp with
  | none => rfl
  | some hostPort =>
    by_cases h0 : hostPort = ""
    · simp [c5PortArg, h0]
    · cases ip with
      | none => simp [c5PortArg, h0, insDedup]
      | some ipv =>
        by_cases hw : ipv = "0.0.0.0" ∨ ipv = "::" ∨ ipv = ""
        · have hb : (ipv != "" && ipv != "0.0.0.0" && ipv != "::") = false := by
            rcases hw with h | h | h <;> subst h <;> decide
          simp [c5PortArg, h0, hw, hb, insDedup]
        · push_neg at hw
          have hb : (ipv != "" && ipv != "0.0.0.0" && ipv != "::") = true := by
            simp [bne_iff_ne, hw.1, hw.2.1, hw.2.2]
          have hw' : ¬ (ipv = "0.0.0.0" ∨ ipv = "::" ∨ ipv = "") := by
            simp [hw.1, hw.2.1, hw.2.2]
          simp [c5PortArg, h0, hb, hw', insDedup]

/-- The nested loops of `collect_ports` compute the deduplicating fold
over the C5 raw argument list. -/
theorem collectPorts_eq_dedup_fold :
    ∀ (ps : List (String × List PortBinding)) (acc : List String),
      ps.foldl (fun portArgs entry =>
        entry.2.foldl (fun portArgs binding =>
          match binding.hostPort with
          | Option.none => portArgs
          | some hostPort =>
            if hostPort = "" then portArgs
            else
              let host :=
                match binding.hostIp with
                | some ip =>
                  if ip != "" && ip != "0.0.0.0" && ip != "::" then ip ++ ":" ++ hostPort
                  else hostPort
                | Option.none => hostPort
              let arg := "-p " ++ shlexQuote (host ++ ":" ++ entry.1)
              if arg ∈ portArgs then portArgs else portArgs ++ [arg])
          portArgs) acc
        = (c5RawArgs ps).foldl insDedup acc := by
  intro ps
  induction ps with
  | nil => intro acc; simp [c5RawArgs]
  | cons entry ps ih =>
    intro acc
    have hinner : ∀ (bs : List PortBinding) (acc : List String),
        bs.foldl (fun portArgs binding =>
          match binding.hostPort with
          | Option.none => portArgs
          | some hostPort =>
            if hostPort = "" then portArgs
            else
              let host :=
                match binding.hostIp with
                | some ip =>
                  if ip != "" && ip != "0.0.0.0" && ip != "::" then ip ++ ":" ++ hostPort
                  else hostPort
                | Option.none => hostPort
              let arg := "-p " ++ shlexQuote (host ++ ":" ++ entry.1)
              if arg ∈ portArgs then portArgs else portArgs ++ [arg]) acc
          = (bs.filterMap (c5PortArg entry.1)).foldl insDedup acc := by
      intro bs
      induction bs with
      | nil => intro acc; rfl
      | cons b bs ihb =>
        intro acc
        rw [List.foldl_cons, List.filterMap_cons]
        have hstep := inner_step_eq entry.1 acc b
        cases hc : c5PortArg entry.1 b with
        | none =>
          rw [hc] at hstep
          simp only at hstep
          rw [show (match b.hostPort with
            | Option.none => acc
            | some hostPort =>
              if hostPort = "" then acc
              else
                let host :=
                  match b.hostIp with
                  | some ip =>
                    if ip != "" && ip != "0.0.0.0" && ip != "::" then ip ++ ":" ++ hostPort
                    else hostPort
                  | Option.none => hostPort
                let arg := "-p " ++ shlexQuote (host ++ ":" ++ entry.1)
                if arg ∈ acc then acc else acc ++ [arg]) = acc from hstep]
          exact ihb acc
        | some a =>
          rw [hc] at hstep
          simp only at hstep
          rw [show (match b.hostPort with
            | Option.none => acc
            | some hostPort =>
              if hostPort = "" then acc
              else
                let host :=
                  match b.hostIp with
                  | some ip =>
                    if ip != "" && ip != "0.0.0.0" && ip != "::" then ip ++ ":" ++ hostPort
                    else hostPort
                  | Option.none => hostPort
                let arg := "-p " ++ shlexQuote (host ++ ":" ++ entry.1)
                if arg ∈ acc then acc else acc ++ [arg]) = insDedup acc a from hstep]
          rw [List.foldl_cons]
          exact ihb (insDedup acc a)
    rw [List.foldl_cons, hinner entry.2 acc]
    have hraw : c5RawArgs (entry :: ps) =
        entry.2.filterMap (c5PortArg entry.1) ++ c5RawArgs ps := by
      simp [c5RawArgs]
    rw [hraw, List.foldl_append]
    exact ih _

/-- The deduplicating fold keeps the first occurrence of each element
not already in the accumulator, in first-seen order. -/
theorem foldl_insDedup_eq_dedupFirst :
    ∀ (xs acc : List String),
      xs.foldl insDedup acc = acc ++ dedupFirst (xs.filter (fun y => y ∉ acc)) := by
  intro xs
  induction xs with
  | nil => intro acc; simp [dedupFirst]
  | cons x xs ih =>
    intro acc
    rw [List.foldl_cons, List.filter_cons]
    by_cases hx : x ∈ acc
    · have h1 : insDedup acc x = acc := by simp [insDedup, hx]
      rw [h1, ih acc]
      simp [hx]
    · have h1 : insDedup acc x = acc ++ [x] := by simp [insDedup, hx]
      rw [h1, ih (acc ++ [x])]
      have h2 : xs.filter (fun y => y ∉ acc ++ [x]) =
          (xs.filter (fun y => y ∉ acc)).filter (fun y => y ≠ x) := by
        rw [List.filter_filter]
        apply List.filter_congr
        intro a _
        by_cases h3 : a = x
        · subst h3; simp
        · by_cases h4 : a ∈ acc <;> simp [h3, h4]
      rw [h2]
      have h5 : (if decide (x ∉ acc) = true then
          x :: xs.filter (fun y => decide (y ∉ acc))
          else xs.filter (fun y => decide (y ∉ acc))) =
          x :: xs.filter (fun y => decide (y ∉ acc)) := by
        simp [hx]
      rw [h5, dedupFirst]
      simp

/-- Elements of `dedupFirst l` come from `l` (length-fueled induction). -/
theorem mem_dedupFirst :
    ∀ (n : Nat) (l : List String), l.length ≤ n → ∀ y ∈ dedupFirst l, y ∈ l := by
  intro n
  induction n with
  | zero =>
    intro l hl
    have : l = [] := List.length_eq_zero.mp (Nat.le_zero.mp hl)
    subst this
    simp [dedupFirst]
  | succ n ih =>
    intro l hl y hy
    cases l with
    | nil => simp [dedupFirst] at hy
    | cons x xs =>
      rw [dedupFirst] at hy
      rcases List.mem_cons.mp hy with rfl | hy2
      · simp
      · have hlen : (xs.filter (fun y => y ≠ x)).length ≤ n :=
          le_trans (List.length_filter_le _ _)
            (Nat.succ_le_succ_iff.mp (by simpa using hl))
        have hmem := ih _ hlen y hy2
        have := List.mem_of_mem_filter hmem
        simp [this]

/-- `dedupFirst` yields a duplicate-free list. -/
theorem dedupFirst_nodup_aux :
    ∀ (n : Nat) (l : List String), l.length ≤ n → (dedupFirst l).Nodup := by
  intro n
  induction n with
  | zero =>
    intro l hl
    have : l = [] := List.length_eq_zero.mp (Nat.le_zero.mp hl)
    subst this
    simp [dedupFirst]
  | succ n ih =>
    intro l hl
    cases l with
    | nil => simp [dedupFirst]
    | cons x xs =>
      rw [dedupFirst, List.nodup_cons]
      have hlen : (xs.filter (fun y => y ≠ x)).length ≤ n :=
        le_trans (List.length_filter_le _ _)
          (Nat.succ_le_succ_iff.mp (by simpa using hl))
      refine ⟨?_, ih _ hlen⟩
      intro hmem
      have := mem_dedupFirst n _ hlen x hmem
      have hcond := (List.mem_filter.mp this).2
      simp at hcond

/-- `dedupFirst` yields a duplicate-free list. -/
theorem dedupFirst_nodup (l : List String) : (dedupFirst l).Nodup :=
  dedupFirst_nodup_aux l.length l le_rfl

/-- C5: `collect_ports` emits exactly the first-seen deduplication of
the per-binding `-p` arguments — one argument per binding with a
non-empty host port, host-IP-prefixed exactly when the IP is set and is
no wildcard, ports without bindings skipped — and the result holds no
duplicate. -/
theorem c5_collect_ports_dedup (ps : List (String × List PortBinding)) :
    collectPorts ps = dedupFirst (c5RawArgs ps) ∧ (collectPorts ps).Nodup := by
  have h : collectPorts ps = dedupFirst (c5RawArgs ps) := by
    unfold collectPorts
    rw [collectPorts_eq_dedup_fold ps [], foldl_insDedup_eq_dedupFirst]
    simp
  exact ⟨h, h ▸ dedupFirst_nodup _⟩

/- ## POSIX-shell tokenization (C7) -/

/-- Quoting state of the word tokenizer. -/
inductive ShellMode where
  | plain
  | single
  | double
deriving DecidableEq

/-- Characters the tokenizer refuses to read as part of a literal word
when unquoted: whitespace, operator and expansion characters (a
conservative POSIX word tokenizer — where it answers, a POSIX shell
reads the same single literal word). -/
def shellMetaChars : List Char :=
  [' ', '\t', '\n', '\r', '\\', '|', '&', ';', '<', '>', '(', ')', '$', '`',
   '*', '?', '[', ']', '\x7b', '\x7d', '#', '~', '!']

/-- A POSIX-compatible single-word tokenizer: single quotes are fully
literal runs, double quotes are literal except for the expansion
characters (refused), unquoted meta characters are refused, and the
input must end outside quotes. -/
def posixTokenize : ShellMode → List Char → Option (List Char)
  | .plain, [] => some []
  | .plain, c :: rest =>
    if c = '\'' then posixTokenize .single rest
    else if c = '"' then posixTokenize .double rest
    else if c ∈ shellMetaChars then Option.none
    else (posixTokenize .plain rest).map (fun w => c :: w)
  | .single, [] => Option.none
  | .single, c :: rest =>
    if c = '\'' then posixTokenize .plain rest
    else (posixTokenize .single rest).map (fun w => c :: w)
  | .double, [] => Option.none
  | .double, c :: rest =>
    if c = '"' then posixTokenize .plain rest
    else if c = '$' ∨ c = '`' ∨ c = '\\' then Option.none
    else (posixTokenize .double rest).map (fun w => c :: w)

/-- Parse a string as one shell word. -/
def posixParseWord (s : String) : Option String :=
  (posixTokenize .plain s.data).map String.mk

/-- A `shlex.quote`-safe character is neither a quote nor a shell meta
character. -/
theorem safeChar_not_special (c : Char) (h : isSafeChar c = true) :
    c ≠ '\'' ∧ c ≠ '"' ∧ c ∉ shellMetaChars := by
  refine ⟨?_, ?_, ?_⟩
  · intro hc; subst hc; exact absurd h (by decide)
  · intro hc; subst hc; exact absurd h (by decide)
  · intro hc
    fin_cases hc <;> exact absurd h (by decide)

/-- Safe strings tokenize to themselves unquoted. -/
theorem posixTokenize_safe (cs : List Char) (h : ∀ c ∈ cs, isSafeChar c = true) :
    posixTokenize .plain cs = some cs := by
  induction cs with
  | nil => rfl
  | cons c rest ih =>
    obtain ⟨h1, h2, h3⟩ := safeChar_not_special c (h c (by simp))
    rw [posixTokenize, if_neg h1, if_neg h2, if_neg h3,
      ih (fun d hd => h d (by simp [hd]))]
    rfl

/-- Inside single quotes, the `'"'"'`-escaped body tokenizes back to the
original characters, continuing in single-quote mode. -/
theorem posixTokenize_esc (cs : List Char) :
    ∀ t, posixTokenize .single (cs.flatMap escSingleQuote ++ t) =
      (posixTokenize .single t).map (fun w => cs ++ w) := by
  induction cs with
  | nil =>
    intro t
    simp
  | cons c cs ih =>
    intro t
    by_cases hc : c = '\''
    · subst hc
      have hesc : escSingleQuote '\'' = ['\'', '"', '\'', '"', '\''] := by
        simp [escSingleQuote]
      rw [List.flatMap_cons, hesc]
      simp only [List.cons_append, List.nil_append, List.append_assoc]
      rw [show posixTokenize .single
          ('\'' :: ('"' :: ('\'' :: ('"' :: ('\'' :: (cs.flatMap escSingleQuote ++ t))))))
          = (posixTokenize .single (cs.flatMap escSingleQuote ++ t)).map
              (fun w => '\'' :: w) from by
        simp [posixTokenize]]
      rw [ih t]
      simp [Option.map_map]
      rfl
    · have hesc : escSingleQuote c = [c] := by simp [escSingleQuote, hc]
      rw [List.flatMap_cons, hesc]
      simp only [List.singleton_append, List.cons_append, List.nil_append]
      rw [posixTokenize, if_neg hc, ih t]
      simp [Option.map_map]
      rfl

/-- C7: quoting any string with the engine's `shlex.quote` and parsing
the result with a POSIX-compatible tokenizer yields back exactly the
original string. -/
theorem c7_quote_round_trip (s : String) : posixParseWord (shlexQuote s) = some s := by
  by_cases h0 : s = ""
  · subst h0; decide
  by_cases hsafe : s.data.all isSafeChar
  · have hq : shlexQuote s = s := by simp [shlexQuote, h0, hsafe]
    rw [hq]
    unfold posixParseWord
    rw [posixTokenize_safe s.data (by simpa [List.all_eq_true] using hsafe)]
    simp [stringMk_data]
  · have hq : shlexQuote s = "'" ++ String.mk (s.data.flatMap escSingleQuote) ++ "'" := by
      simp [shlexQuote, h0, hsafe]
    rw [hq]
    unfold posixParseWord
    have hdata : ("'" ++ String.mk (s.data.flatMap escSingleQuote) ++ "'").data
        = '\'' :: (s.data.flatMap escSingleQuote ++ ['\'']) := by
      simp [String.data_append]
    rw [hdata]
    rw [show posixTokenize .plain ('\'' :: (s.data.flatMap escSingleQuote ++ ['\'']))
        = posixTokenize .single (s.data.flatMap escSingleQuote ++ ['\'']) from by
      simp [posixTokenize]]
    rw [posixTokenize_esc s.data ['\'']]
    rw [show posixTokenize .single ['\''] = some [] from rfl]
    simp [stringMk_data]
